import Mathlib

/-!
Verification of the XSS detection engine in `xss_detector.py`.

Strings from the Python source are embedded as `List Char` (a Python `str`
is a sequence of characters).  The regular-expression patterns compiled with
`re.compile(pattern, re.IGNORECASE)` are embedded as terms of a small regex
AST; matching is executed with Brzozowski derivatives.  `re.findall` is
embedded as a left-to-right scan of non-overlapping matches.  The embedded
scan takes the longest match at each position while Python's backtracking
engine may report different extents for lazy quantifiers (`.*?`); whether a
pattern matches at all (which is what every statement below depends on)
coincides with Python's semantics.
-/

/-- Regex AST.  `cls p` matches a single character satisfying `p`;
`fail` is the empty language, `eps` the empty string. -/
inductive Regex where
  | fail : Regex
  | eps : Regex
  | cls : (Char → Bool) → Regex
  | seq : Regex → Regex → Regex
  | alt : Regex → Regex → Regex
  | star : Regex → Regex

/-- Does the regex accept the empty string? -/
def nullable : Regex → Bool
  | Regex.fail => false
  | Regex.eps => true
  | Regex.cls _ => false
  | Regex.seq a b => nullable a && nullable b
  | Regex.alt a b => nullable a || nullable b
  | Regex.star _ => true

/-- Brzozowski derivative with respect to one character. -/
def rderiv : Regex → Char → Regex
  | Regex.fail, _ => Regex.fail
  | Regex.eps, _ => Regex.fail
  | Regex.cls p, c => if p c then Regex.eps else Regex.fail
  | Regex.seq a b, c =>
      if nullable a then Regex.alt (Regex.seq (rderiv a c) b) (rderiv b c)
      else Regex.seq (rderiv a c) b
  | Regex.alt a b, c => Regex.alt (rderiv a c) (rderiv b c)
  | Regex.star r, c => Regex.seq (rderiv r c) (Regex.star r)

/-- The regex accepts exactly the word `w`. -/
def accepts (r : Regex) (w : List Char) : Bool :=
  nullable (w.foldl rderiv r)

/-- Length of the longest prefix of `s` accepted by `r`, if any prefix is. -/
def longestMatch (r : Regex) : List Char → Option Nat
  | [] => if nullable r then some 0 else Option.none
  | c :: cs =>
      match longestMatch (rderiv r c) cs with
      | some n => some (n + 1)
      | Option.none => if nullable r then some 0 else Option.none

/-- Fuel-indexed scan of non-overlapping matches, left to right
(embedding of `re.findall`; the patterns in this development have no
capture groups, so `findall` returns the full match strings). -/
def findallAux (r : Regex) : Nat → List Char → List (List Char)
  | 0, _ => []
  | _ + 1, [] => if nullable r then [[]] else []
  | fuel + 1, c :: cs =>
      match longestMatch r (c :: cs) with
      | Option.none => findallAux r fuel cs
      | some 0 => [] :: findallAux r fuel cs
      | some (n + 1) =>
          (c :: cs).take (n + 1) :: findallAux r fuel ((c :: cs).drop (n + 1))

/-- Embedding of `pattern.findall(s)`. -/
def findall (r : Regex) (s : List Char) : List (List Char) :=
  findallAux r (s.length + 1) s

/-- A single character, case-insensitively (`re.IGNORECASE`). -/
def ichar (c : Char) : Regex :=
  Regex.cls (fun x => x.toLower == c.toLower)

/-- A literal string, case-insensitively. -/
def istr (s : String) : Regex :=
  s.data.foldr (fun c r => Regex.seq (ichar c) r) Regex.eps

/-- Concatenation of a list of regexes. -/
def rcat (rs : List Regex) : Regex :=
  rs.foldr Regex.seq Regex.eps

/-- One or more repetitions (`+`). -/
def rplus (r : Regex) : Regex :=
  Regex.seq r (Regex.star r)

/-- Character class `\w` (ASCII letters, digits, underscore; the unicode
word characters Python also accepts do not occur in this development). -/
def wordChar : Regex :=
  Regex.cls (fun c => c.isAlphanum || c == '_')

/-- Character class `\s` (ASCII whitespace). -/
def spaceChar : Regex :=
  Regex.cls (fun c => " \t\n\r\x0b\x0c".data.contains c)

/-- Character class `[^>]`. -/
def notGt : Regex :=
  Regex.cls (fun c => !(c == '>'))

/-- Class `.` without `re.DOTALL`: any character except a newline. -/
def dotAny : Regex :=
  Regex.cls (fun c => !(c == '\n'))

/-- Pattern `<script[^>]*>.*?</script>` (the lazy `.*?` has the same language as
a greedy star). -/
def xp0 : Regex := rcat [istr "<script", Regex.star notGt, istr ">", Regex.star dotAny, istr "</script>"]

/-- Pattern `<script[^>]*>`. -/
def xp1 : Regex := rcat [istr "<script", Regex.star notGt, istr ">"]

/-- Pattern `javascript:`. -/
def xp2 : Regex := istr "javascript:"

/-- Pattern `on\w+\s*=`. -/
def xp3 : Regex := rcat [istr "on", rplus wordChar, Regex.star spaceChar, istr "="]

/-- Pattern `onerror\s*=`. -/
def xp4 : Regex := rcat [istr "onerror", Regex.star spaceChar, istr "="]

/-- Pattern `onload\s*=`. -/
def xp5 : Regex := rcat [istr "onload", Regex.star spaceChar, istr "="]

/-- Pattern `onclick\s*=`. -/
def xp6 : Regex := rcat [istr "onclick", Regex.star spaceChar, istr "="]

/-- Pattern `onmouseover\s*=`. -/
def xp7 : Regex := rcat [istr "onmouseover", Regex.star spaceChar, istr "="]

/-- Pattern `alert\s*\(`. -/
def xp8 : Regex := rcat [istr "alert", Regex.star spaceChar, istr "("]

/-- Pattern `prompt\s*\(`. -/
def xp9 : Regex := rcat [istr "prompt", Regex.star spaceChar, istr "("]

/-- Pattern `confirm\s*\(`. -/
def xp10 : Regex := rcat [istr "confirm", Regex.star spaceChar, istr "("]

/-- Pattern `document\.cookie`. -/
def xp11 : Regex := istr "document.cookie"

/-- Pattern `document\.write`. -/
def xp12 : Regex := istr "document.write"

/-- Pattern `eval\s*\(`. -/
def xp13 : Regex := rcat [istr "eval", Regex.star spaceChar, istr "("]

/-- Pattern `<iframe[^>]*>`. -/
def xp14 : Regex := rcat [istr "<iframe", Regex.star notGt, istr ">"]

/-- Pattern `<object[^>]*>`. -/
def xp15 : Regex := rcat [istr "<object", Regex.star notGt, istr ">"]

/-- Pattern `<embed[^>]*>`. -/
def xp16 : Regex := rcat [istr "<embed", Regex.star notGt, istr ">"]

/-- Pattern `<img[^>]*onerror`. -/
def xp17 : Regex := rcat [istr "<img", Regex.star notGt, istr "onerror"]

/-- Pattern `<svg[^>]*onload`. -/
def xp18 : Regex := rcat [istr "<svg", Regex.star notGt, istr "onload"]

/-- Pattern `data:\s*text/html`. -/
def xp19 : Regex := rcat [istr "data:", Regex.star spaceChar, istr "text/html"]

/-- Pattern `vbscript:`. -/
def xp20 : Regex := istr "vbscript:"

/-- Pattern `livescript:`. -/
def xp21 : Regex := istr "livescript:"

/-- Pattern `String\.fromCharCode`. -/
def xp22 : Regex := istr "String.fromCharCode"

/-- Pattern `unescape\s*\(`. -/
def xp23 : Regex := rcat [istr "unescape", Regex.star spaceChar, istr "("]

/-- Pattern `setTimeout\s*\(`. -/
def xp24 : Regex := rcat [istr "setTimeout", Regex.star spaceChar, istr "("]

/-- Pattern `setInterval\s*\(`. -/
def xp25 : Regex := rcat [istr "setInterval", Regex.star spaceChar, istr "("]

/-- Embedding of `self.xss_patterns`: the raw pattern strings, in source order. -/
def xss_patterns : List String :=
  ["<script[^>]*>.*?</script>",
   "<script[^>]*>",
   "javascript:",
   "on\\w+\\s*=",
   "onerror\\s*=",
   "onload\\s*=",
   "onclick\\s*=",
   "onmouseover\\s*=",
   "alert\\s*\\(",
   "prompt\\s*\\(",
   "confirm\\s*\\(",
   "document\\.cookie",
   "document\\.write",
   "eval\\s*\\(",
   "<iframe[^>]*>",
   "<object[^>]*>",
   "<embed[^>]*>",
   "<img[^>]*onerror",
   "<svg[^>]*onload",
   "data:\\s*text/html",
   "vbscript:",
   "livescript:",
   "String\\.fromCharCode",
   "unescape\\s*\\(",
   "setTimeout\\s*\\(",
   "setInterval\\s*\\("]

/-- Embedding of `self.compiled_patterns`: each entry is the compilation (with
`re.IGNORECASE`) of the pattern string at the same index of
`xss_patterns`. -/
def compiled_patterns : List Regex :=
  [xp0, xp1, xp2, xp3, xp4, xp5, xp6, xp7, xp8, xp9, xp10, xp11, xp12,
   xp13, xp14, xp15, xp16, xp17, xp18, xp19, xp20, xp21, xp22, xp23, xp24, xp25]

/-- Hexadecimal digits accepted by `urllib.parse.unquote` in an escape. -/
def hexDigits : List Char :=
  "0123456789abcdefABCDEF".data

/-- Is `c` a hexadecimal digit? -/
def isHexChar (c : Char) : Bool :=
  decide (c ∈ hexDigits)

/-- Numeric value of a hexadecimal digit. -/
def hexVal (c : Char) : Nat :=
  if c.isDigit then c.toNat - '0'.toNat
  else c.toLower.toNat - 'a'.toNat + 10

/-- Percent-decoding pass of `urllib.parse.unquote`: a `%` followed by two
hexadecimal digits becomes the byte they denote; any other `%` is kept
literally and scanning resumes at the next character.  Decoded bytes are
embedded as the character with that code point; CPython additionally
decodes runs of bytes as UTF-8 with `errors='replace'`, which agrees with
this embedding on escapes below `0x80` (the only ones exercised by any
statement in this development). -/
def pctDecode : List Char → List Char
  | [] => []
  | '%' :: h1 :: h2 :: rest' =>
      if isHexChar h1 && isHexChar h2 then
        Char.ofNat (16 * hexVal h1 + hexVal h2) :: pctDecode rest'
      else '%' :: pctDecode (h1 :: h2 :: rest')
  | '%' :: rest => '%' :: pctDecode rest
  | c :: rest => c :: pctDecode rest

/-- The `+` → space replacement done by `unquote_plus` before unquoting. -/
def plusToSpace (s : List Char) : List Char :=
  s.map (fun c => if c = '+' then ' ' else c)

/-- Embedding of `urllib.parse.unquote_plus`. -/
def unquote_plus (s : List Char) : List Char :=
  pctDecode (plusToSpace s)

/-- One record of `detected_patterns` built by `detect_xss`:
`{"pattern_id": i, "pattern": xss_patterns[i], "matches": matches[:5] (field renamed matches5 because matches is a Lean keyword)}`. -/
structure MatchRecord where
  pattern_id : Nat
  pattern : String
  matches5 : List (List Char)
deriving DecidableEq

/-- The `attack_info` dictionary logged on a detection. -/
structure AttackInfo where
  timestamp : List Char
  source_ip : List Char
  url : List Char
  detected_patterns : List MatchRecord
  risk_level : String
  content_sample : List Char
deriving DecidableEq

/-- Mutable state of an `XSSDetector` instance: `self.detection_count`
and `self.attack_log`. -/
structure DetectorState where
  detection_count : Nat
  attack_log : List AttackInfo
deriving DecidableEq

/-- The detector state built by `XSSDetector.__init__`. -/
def initState : DetectorState :=
  DetectorState.mk 0 []

/-- The dictionary returned by `detect_xss` (the `attack_info` key is
present only on a detection). -/
structure DetectOutput where
  detected : Bool
  patterns : List MatchRecord
  risk_level : String
  attack_info : Option AttackInfo
deriving DecidableEq

/-- The pattern loop of `detect_xss` (lines 101-111): for each compiled
pattern, run `findall` on the decoded content and record non-empty match
lists together with the pattern index and source string, capping the
recorded matches at 5. -/
def scanPatterns (decoded : List Char) : List MatchRecord :=
  compiled_patterns.enum.filterMap (fun p =>
    let ms := findall p.2 decoded
    if ms.isEmpty then Option.none
    else some (MatchRecord.mk p.1 (xss_patterns.getD p.1 "") (ms.take 5)))

/-- The list `high_risk_patterns` of `_calculate_risk_level` (positional indexes). -/
def high_risk_patterns : List Nat := [0, 1, 2, 3, 4, 5, 6, 10, 11, 12]

/-- The list `medium_risk_patterns` of `_calculate_risk_level` (positional indexes). -/
def medium_risk_patterns : List Nat := [7, 8, 9, 13, 14, 15, 16]

/-- Embedding of `XSSDetector._calculate_risk_level` (the leading
underscore of the Python name is dropped).  `pid in high_risk_patterns`
is list membership. -/
def calculate_risk_level (patterns : List MatchRecord) : String :=
  if (patterns.map (fun p => p.pattern_id)).any (fun pid => decide (pid ∈ high_risk_patterns)) then "high"
  else if (patterns.map (fun p => p.pattern_id)).any (fun pid => decide (pid ∈ medium_risk_patterns)) then "medium"
  else "low"

/-- Embedding of `XSSDetector.detect_xss`.  The detector state is passed
explicitly; `now` stands for `datetime.now().isoformat()`.  The
`try/except` around `unquote_plus` is not represented because the embedded
`unquote_plus` is a total function, as is CPython's (the `except` branch
is unreachable).  The `logger.warning` emission of `_log_attack` has no
observable effect on the state or result and is not modelled. -/
def detect_xss (st : DetectorState) (now : List Char) (content : List Char)
    (source_ip : List Char) (url : List Char) : DetectorState × DetectOutput :=
  if content = [] then (st, DetectOutput.mk false [] "low" Option.none)
  else
    let decoded_content := unquote_plus content
    let detected_patterns := scanPatterns decoded_content
    if detected_patterns = [] then (st, DetectOutput.mk false [] "low" Option.none)
    else
      let risk_level := calculate_risk_level detected_patterns
      let attack_info := AttackInfo.mk now source_ip url detected_patterns risk_level
        (decoded_content.take 200)
      (DetectorState.mk (st.detection_count + 1) (st.attack_log ++ [attack_info]),
       DetectOutput.mk true detected_patterns risk_level (some attack_info))

/-- One entry of the `results` list of `analyze_http_request`: a
detection result together with the `"location"` tag added to it. -/
structure LocationResult where
  location : List Char
  result : DetectOutput
deriving DecidableEq

/-- The dictionary returned by `analyze_http_request`. -/
structure RequestVerdict where
  detected : Bool
  results : List LocationResult
  total_detections : Nat
deriving DecidableEq

/-- The header names inspected by `analyze_http_request` (compared
against the lowercased header name). -/
def inspected_headers : List (List Char) :=
  ["user-agent".data, "referer".data, "x-forwarded-for".data]

/-- Embedding of `header_name.lower()` (ASCII lowering; the header names in this
development are ASCII). -/
def lowerStr (s : List Char) : List Char :=
  s.map Char.toLower

/-- One step of the header loop of `analyze_http_request`: inspect the
header if its lowercased name is one of the three interesting names, and
append a tagged result on detection. -/
def headerCheck (now : List Char) (source_ip : List Char) (url : List Char)
    (acc : DetectorState × List LocationResult) (hv : List Char × List Char) :
    DetectorState × List LocationResult :=
  if lowerStr hv.1 ∈ inspected_headers then
    let r := detect_xss acc.1 now hv.2 source_ip url
    if r.2.detected then (r.1, acc.2 ++ [LocationResult.mk ("Header-".data ++ hv.1) r.2])
    else (r.1, acc.2)
  else acc

/-- Embedding of `XSSDetector.analyze_http_request`.  The Python `headers`
dictionary is embedded as an association list in insertion order, which is
the order `headers.items()` iterates.  `method` is received and ignored,
as in the source.  The same `now` is used for the up to three `detect_xss`
calls (their timestamps differ only below observable granularity and no
statement here depends on them). -/
def analyze_http_request (st : DetectorState) (now : List Char) (_method : List Char)
    (url : List Char) (headers : List (List Char × List Char)) (body : List Char)
    (source_ip : List Char) : DetectorState × RequestVerdict :=
  let urlStep := detect_xss st now url source_ip url
  let results0 : List LocationResult :=
    if urlStep.2.detected then [LocationResult.mk "URL".data urlStep.2] else []
  let headerStep := headers.foldl (headerCheck now source_ip url) (urlStep.1, results0)
  let bodyStep :=
    if body = [] then headerStep
    else
      let r := detect_xss headerStep.1 now body source_ip url
      if r.2.detected then (r.1, headerStep.2 ++ [LocationResult.mk "Body".data r.2])
      else (r.1, headerStep.2)
  (bodyStep.1,
   RequestVerdict.mk (decide (0 < bodyStep.2.length)) bodyStep.2 bodyStep.2.length)

/-- The `risk_levels` tally of `get_statistics`. -/
structure RiskLevels where
  high : Nat
  medium : Nat
  low : Nat
deriving DecidableEq

/-- One `risk_levels[attack["risk_level"]] += 1` step.  For any record
whose `risk_level` is not one of the three keys Python would raise
`KeyError`; records built by `detect_xss` always carry one of the three,
so that branch is unreachable and is embedded as the identity. -/
def bumpRisk (acc : RiskLevels) (risk : String) : RiskLevels :=
  if risk = "high" then RiskLevels.mk (acc.high + 1) acc.medium acc.low
  else if risk = "medium" then RiskLevels.mk acc.high (acc.medium + 1) acc.low
  else if risk = "low" then RiskLevels.mk acc.high acc.medium (acc.low + 1)
  else acc

/-- The dictionary returned by `get_statistics`. -/
structure Statistics where
  total_detections : Nat
  risk_levels : RiskLevels
  recent_attacks : List AttackInfo
  patterns_loaded : Nat
deriving DecidableEq

/-- Embedding of `XSSDetector.get_statistics`.  `self.attack_log[-10:]`
is the list of the last (up to) 10 entries. -/
def get_statistics (st : DetectorState) : Statistics :=
  let risk_levels := st.attack_log.foldl (fun acc a => bumpRisk acc a.risk_level) (RiskLevels.mk 0 0 0)
  Statistics.mk st.detection_count risk_levels
    (st.attack_log.drop (st.attack_log.length - 10)) xss_patterns.length

/-- JSON string escaping as performed by `json.dump` with its default
`ensure_ascii=True` (the characters serialized in this development are
printable ASCII, for which only `"` and `\\` need escaping). -/
def jsonEscapeChar (c : Char) : String :=
  match c with
  | '"' => "\\\""
  | '\\' => "\\\\"
  | '\n' => "\\n"
  | '\t' => "\\t"
  | '\r' => "\\r"
  | _ =>
    if c.toNat < 32 || 127 <= c.toNat then
      "\\u" ++ (String.mk (Nat.toDigits 16 c.toNat)).leftpad 4 '0'
    else String.mk [c]

/-- Render a JSON string literal. -/
def jsonStr (s : List Char) : String :=
  "\"" ++ String.join (s.map jsonEscapeChar) ++ "\""

/-- Padding of `indent` spaces. -/
def jsonPad (indent : Nat) : String :=
  String.mk (List.replicate indent ' ')

/-- Render a JSON array of pre-rendered items the way
`json.dump(..., indent=2)` does at nesting depth `indent`. -/
def jsonArr (indent : Nat) (items : List String) : String :=
  if items.isEmpty then "[]"
  else "[\n" ++ String.intercalate ",\n" (items.map (fun it => jsonPad (indent + 2) ++ it))
    ++ "\n" ++ jsonPad indent ++ "]"

/-- Render a JSON object from rendered key/value pairs the way
`json.dump(..., indent=2)` does at nesting depth `indent`. -/
def jsonObj (indent : Nat) (fields : List (String × String)) : String :=
  if fields.isEmpty then "\x7b\x7d"
  else "\x7b\n" ++ String.intercalate ",\n"
      (fields.map (fun f => jsonPad (indent + 2) ++ jsonStr f.1.data ++ ": " ++ f.2))
    ++ "\n" ++ jsonPad indent ++ "\x7d"

/-- Serialization of one `detected_patterns` entry. -/
def jsonOfMatchRecord (indent : Nat) (m : MatchRecord) : String :=
  jsonObj indent
    [("pattern_id", toString m.pattern_id),
     ("pattern", jsonStr m.pattern.data),
     ("matches", jsonArr (indent + 2) (m.matches5.map jsonStr))]

/-- Serialization of one `attack_log` entry, keys in insertion order. -/
def jsonOfAttackInfo (indent : Nat) (a : AttackInfo) : String :=
  jsonObj indent
    [("timestamp", jsonStr a.timestamp),
     ("source_ip", jsonStr a.source_ip),
     ("url", jsonStr a.url),
     ("detected_patterns", jsonArr (indent + 2) (a.detected_patterns.map (jsonOfMatchRecord (indent + 4)))),
     ("risk_level", jsonStr a.risk_level.data),
     ("content_sample", jsonStr a.content_sample)]

/-- Embedding of `json.dump(self.attack_log, f, indent=2)`: one JSON array document
holding every attack record. -/
def json_dump_log (log : List AttackInfo) : String :=
  jsonArr 0 (log.map (jsonOfAttackInfo 2))

/-- The mode the file is opened with. -/
inductive OpenMode where
  | writeMode : OpenMode
  | appendMode : OpenMode
deriving DecidableEq

/-- The mode `save_log_to_file` opens its file with `open(filename, 'w')`. -/
def save_open_mode : OpenMode := OpenMode.writeMode

/-- Embedding of `XSSDetector.save_log_to_file` as a function from the
previous contents of the target file to its contents after the call:
write mode truncates, append mode would keep the previous contents. -/
def save_log_to_file (prior : String) (st : DetectorState) : String :=
  match save_open_mode with
  | OpenMode.writeMode => json_dump_log st.attack_log
  | OpenMode.appendMode => prior ++ json_dump_log st.attack_log

/-- Risk tiers ordered numerically, low < medium < high (used to state
the comparison claims; any other string sits at the bottom). -/
def riskValue (s : String) : Nat :=
  if s = "high" then 2 else if s = "medium" then 1 else 0

/-- The verdict bit of `detect_xss` as a function of the content alone
(`detect_xss_detected` shows it coincides with the detector's answer for
every state and metadata). -/
def detectedFlag (c : List Char) : Bool :=
  !c.isEmpty && !(scanPatterns (unquote_plus c)).isEmpty

/-- Eleven detections of the same payload in sequence, starting from a
fresh detector (concrete input for the C4 counterexample). -/
def runDetections : Nat → DetectorState → DetectorState
  | 0, st => st
  | n + 1, st => runDetections n (detect_xss st "t".data "<script>".data "1.2.3.4".data "/u".data).1

/-- Some substring of `s` is accepted by `r` (the semantic counterpart
of `findall` being non-empty, i.e. of `re.search` succeeding). -/
def HasMatchP (r : Regex) (s : List Char) : Prop :=
  ∃ u v w : List Char, s = u ++ v ++ w ∧ accepts r v = true

/-- Over-approximation of the characters a non-empty word of `r` can end
with. -/
def finals : Regex → Char → Bool
  | Regex.fail, _ => false
  | Regex.eps, _ => false
  | Regex.cls p, c => p c
  | Regex.seq a b, c => finals b c || (nullable b && finals a c)
  | Regex.alt a b, c => finals a c || finals b c
  | Regex.star r, c => finals r c

/-- Does `r` accept the one-character word `[c]`? -/
def singleChar (r : Regex) (c : Char) : Bool :=
  nullable (rderiv r c)

/-- Over-approximation of the ordered pairs of characters a word of `r`
of length at least two can end with. -/
def last2 : Regex → Char → Char → Bool
  | Regex.fail, _, _ => false
  | Regex.eps, _, _ => false
  | Regex.cls _, _, _ => false
  | Regex.seq a b, x, y =>
      last2 b x y || (nullable b && last2 a x y) || (finals a x && singleChar b y)
  | Regex.alt a b, x, y => last2 a x y || last2 b x y
  | Regex.star r, x, y => last2 r x y || (finals r x && singleChar r y)

theorem detect_xss_def (st : DetectorState) (now c ip url : List Char) :
    detect_xss st now c ip url =
      if c = [] then (st, DetectOutput.mk false [] "low" Option.none)
      else if scanPatterns (unquote_plus c) = [] then (st, DetectOutput.mk false [] "low" Option.none)
      else
        (DetectorState.mk (st.detection_count + 1) (st.attack_log ++
            [AttackInfo.mk now ip url (scanPatterns (unquote_plus c))
              (calculate_risk_level (scanPatterns (unquote_plus c))) ((unquote_plus c).take 200)]),
         DetectOutput.mk true (scanPatterns (unquote_plus c))
           (calculate_risk_level (scanPatterns (unquote_plus c)))
           (some (AttackInfo.mk now ip url (scanPatterns (unquote_plus c))
              (calculate_risk_level (scanPatterns (unquote_plus c))) ((unquote_plus c).take 200)))) := by
  rfl

theorem detect_xss_detected (st : DetectorState) (now c ip url : List Char) :
    (detect_xss st now c ip url).2.detected = detectedFlag c := by
  rw [detect_xss_def]
  unfold detectedFlag
  split
  · simp_all
  · split <;> simp_all

/-- Claim C1 counterexample: the content `"<script>"` has 8 characters,
below the claimed 10-character minimum, yet `detect_xss` scans it and
reports a detection (via pattern 1, `<script[^>]*>`). -/
theorem C1_counterexample :
    "<script>".data.length < 10 ∧
    (detect_xss initState "t".data "<script>".data "1.2.3.4".data "/u".data).2.detected = true := by
  constructor
  · decide
  · decide

/-- Claim C1 (amended): `detect_xss` short-circuits only on empty content
— for empty content it returns detected=false, empty patterns and risk
"low" without scanning and without touching the state; there is no
minimum-length threshold, and non-empty content of any length is scanned. -/
theorem C1_empty_content_short_circuit (st : DetectorState) (now ip url : List Char) :
    detect_xss st now [] ip url = (st, DetectOutput.mk false [] "low" Option.none) := by
  rfl

/-- Claim C2 counterexample: content matching only the `setTimeout\s*\(`
sink-call signature (pattern 24) yields risk "low", not "high", and
content matching only the `eval\s*\(` sink-call signature (pattern 13)
yields risk "medium", not "high". -/
theorem C2_counterexample :
    (detect_xss initState "t".data "setTimeout(1)".data "1.2.3.4".data "/u".data).2.patterns.map
        (fun p => p.pattern_id) = [24] ∧
    (detect_xss initState "t".data "setTimeout(1)".data "1.2.3.4".data "/u".data).2.risk_level = "low" ∧
    (detect_xss initState "t".data "eval(abc)".data "1.2.3.4".data "/u".data).2.patterns.map
        (fun p => p.pattern_id) = [13] ∧
    (detect_xss initState "t".data "eval(abc)".data "1.2.3.4".data "/u".data).2.risk_level = "medium" := by
  refine ⟨by decide, by decide, by decide, by decide⟩

/-- How `calculate_risk_level` reports "high". -/
theorem calculate_risk_high_iff (ps : List MatchRecord) :
    calculate_risk_level ps = "high" ↔ ∃ m ∈ ps, m.pattern_id ∈ high_risk_patterns := by
  unfold calculate_risk_level
  by_cases h : ((ps.map (fun p => p.pattern_id)).any (fun pid => decide (pid ∈ high_risk_patterns))) = true
  · rw [if_pos h]
    simp only [List.any_eq_true, List.mem_map, decide_eq_true_eq] at h
    obtain ⟨pid, ⟨m, hm, hpid⟩, hmem⟩ := h
    exact iff_of_true rfl ⟨m, hm, hpid ▸ hmem⟩
  · rw [if_neg h]
    constructor
    · intro hh
      split at hh <;> simp_all
    · rintro ⟨m, hm, hmem⟩
      apply absurd _ h
      simp only [List.any_eq_true, List.mem_map, decide_eq_true_eq]
      exact ⟨m.pattern_id, ⟨m, hm, rfl⟩, hmem⟩

/-- How `calculate_risk_level` reports "medium". -/
theorem calculate_risk_medium_iff (ps : List MatchRecord) :
    calculate_risk_level ps = "medium" ↔
      ((∀ m ∈ ps, m.pattern_id ∉ high_risk_patterns) ∧
       ∃ m ∈ ps, m.pattern_id ∈ medium_risk_patterns) := by
  unfold calculate_risk_level
  by_cases h : ((ps.map (fun p => p.pattern_id)).any (fun pid => decide (pid ∈ high_risk_patterns))) = true
  · rw [if_pos h]
    simp only [List.any_eq_true, List.mem_map, decide_eq_true_eq] at h
    obtain ⟨pid, ⟨m, hm, hpid⟩, hmem⟩ := h
    constructor
    · intro hfalse; simp_all
    · rintro ⟨hall, -⟩
      exact absurd (hpid ▸ hmem) (hall m hm)
  · rw [if_neg h]
    have hall : ∀ m ∈ ps, m.pattern_id ∉ high_risk_patterns := by
      intro m hm hmem
      apply h
      simp only [List.any_eq_true, List.mem_map, decide_eq_true_eq]
      exact ⟨m.pattern_id, ⟨m, hm, rfl⟩, hmem⟩
    by_cases h2 : ((ps.map (fun p => p.pattern_id)).any (fun pid => decide (pid ∈ medium_risk_patterns))) = true
    · rw [if_pos h2]
      simp only [List.any_eq_true, List.mem_map, decide_eq_true_eq] at h2
      obtain ⟨pid, ⟨m, hm, hpid⟩, hmem⟩ := h2
      exact iff_of_true rfl ⟨hall, m, hm, hpid ▸ hmem⟩
    · rw [if_neg h2]
      constructor
      · intro hfalse; simp_all
      · rintro ⟨-, m, hm, hmem⟩
        apply absurd _ h2
        simp only [List.any_eq_true, List.mem_map, decide_eq_true_eq]
        exact ⟨m.pattern_id, ⟨m, hm, rfl⟩, hmem⟩

/-- Claim C2 (amended): the risk tier is derived from positional pattern
indexes: "high" iff some matched pattern id lies in `high_risk_patterns`
= [0,1,2,3,4,5,6,10,11,12] (script tags, `javascript:`, the `on*=` event
handlers except a lone `onmouseover`, `confirm`, `document.cookie`,
`document.write`); otherwise "medium" iff some matched id lies in
`medium_risk_patterns` = [7,8,9,13,14,15,16] (`onmouseover`, `alert`,
`prompt`, `eval`, `<iframe>`, `<object>`, `<embed>`); otherwise "low"
(which includes `<img ... onerror`, `<svg ... onload`, `data:text/html`,
`vbscript:`, `livescript:`, `String.fromCharCode`, `unescape`,
`setTimeout`, `setInterval`). -/
theorem detect_risk_high_iff (st : DetectorState) (now c ip url : List Char) :
    (detect_xss st now c ip url).2.risk_level = "high" ↔
      ∃ m ∈ (detect_xss st now c ip url).2.patterns, m.pattern_id ∈ high_risk_patterns := by
  rw [detect_xss_def]
  split
  · simp
  · split
    · simp
    · exact calculate_risk_high_iff _

theorem detect_risk_medium_iff (st : DetectorState) (now c ip url : List Char) :
    (detect_xss st now c ip url).2.risk_level = "medium" ↔
      ((∀ m ∈ (detect_xss st now c ip url).2.patterns, m.pattern_id ∉ high_risk_patterns) ∧
       ∃ m ∈ (detect_xss st now c ip url).2.patterns, m.pattern_id ∈ medium_risk_patterns) := by
  rw [detect_xss_def]
  split
  · simp
  · split
    · simp
    · exact calculate_risk_medium_iff _

theorem C2_risk_from_positional_ids (st : DetectorState) (now c ip url : List Char) :
    ((detect_xss st now c ip url).2.risk_level = "high" ↔
      ∃ m ∈ (detect_xss st now c ip url).2.patterns, m.pattern_id ∈ high_risk_patterns) ∧
    ((detect_xss st now c ip url).2.risk_level = "medium" ↔
      ((∀ m ∈ (detect_xss st now c ip url).2.patterns, m.pattern_id ∉ high_risk_patterns) ∧
       ∃ m ∈ (detect_xss st now c ip url).2.patterns, m.pattern_id ∈ medium_risk_patterns)) :=
  ⟨detect_risk_high_iff st now c ip url, detect_risk_medium_iff st now c ip url⟩

/-- Witness for C2 (amended), instantiated at `"<script>"`: pattern 1 is
matched and lies in the high list, so the risk is "high". -/
theorem C2_risk_from_positional_ids_witness :
    (detect_xss initState "t".data "<script>".data "1.2.3.4".data "/u".data).2.risk_level = "high" :=
  (C2_risk_from_positional_ids initState "t".data "<script>".data "1.2.3.4".data "/u".data).1.mpr
    ⟨MatchRecord.mk 1 "<script[^>]*>" ["<script>".data], by decide, by decide⟩

/-- Claim C3 counterexample: calling `save_log_to_file` on a file that
already holds the text "X" produces "[]": the prior contents are not
preserved (the file is opened in write mode, not append mode, and the log
is one JSON array, not newline-delimited records). -/
theorem C3_counterexample :
    save_log_to_file "X" initState = "[]" ∧
    "X".data.isPrefixOf (save_log_to_file "X" initState).data = false := by
  constructor
  · rfl
  · decide

/-- Claim C3 (amended): `save_log_to_file` serializes the full attack log
as a single pretty-printed JSON array and opens the file in write mode,
so the new contents are independent of — and replace — whatever the file
held before. -/
theorem C3_save_overwrites (prior1 prior2 : String) (st : DetectorState) :
    save_log_to_file prior1 st = save_log_to_file prior2 st ∧
    save_log_to_file prior1 st = json_dump_log st.attack_log ∧
    save_open_mode = OpenMode.writeMode := by
  exact ⟨rfl, rfl, rfl⟩

/-- Claim C4 counterexample: after 11 detections the stored attack
history holds 11 records — more than K = 10; nothing is evicted. -/
theorem C4_counterexample :
    (runDetections 11 initState).attack_log.length = 11 ∧ 10 < 11 := by
  constructor
  · decide
  · decide

/-- Claim C4 (amended): the stored attack log is unbounded — every
detection appends one record and nothing is ever evicted; only the
`recent_attacks` field of the statistics snapshot is capped at the 10
most recent records. -/
theorem C4_log_unbounded_recent_capped (st : DetectorState) (now c ip url : List Char)
    (h : (detect_xss st now c ip url).2.detected = true) :
    (detect_xss st now c ip url).1.attack_log.length = st.attack_log.length + 1 ∧
    (get_statistics (detect_xss st now c ip url).1).recent_attacks.length ≤ 10 := by
  rw [detect_xss_def] at h ⊢
  by_cases hc : c = []
  · rw [if_pos hc] at h
    simp at h
  · rw [if_neg hc] at h ⊢
    by_cases hs : scanPatterns (unquote_plus c) = []
    · rw [if_pos hs] at h
      simp at h
    · rw [if_neg hs]
      refine ⟨by simp, ?_⟩
      simp [get_statistics]
      omega

/-- Witness for C4 (amended) at a fresh state and the payload
`"<script>"`. -/
theorem C4_log_unbounded_recent_capped_witness :
    (detect_xss initState "t".data "<script>".data "1.2.3.4".data "/u".data).1.attack_log.length =
      initState.attack_log.length + 1 ∧
    (get_statistics (detect_xss initState "t".data "<script>".data "1.2.3.4".data "/u".data).1).recent_attacks.length ≤ 10 :=
  C4_log_unbounded_recent_capped initState "t".data "<script>".data "1.2.3.4".data "/u".data (by decide)

/-- Claim C7: a detecting call increments `detection_count` by exactly 1
and appends exactly one record to the attack log; a non-detecting call
leaves the state untouched. -/
theorem C7_state_mutation (st : DetectorState) (now c ip url : List Char) :
    ((detect_xss st now c ip url).2.detected = true →
      (detect_xss st now c ip url).1.detection_count = st.detection_count + 1 ∧
      ∃ a, (detect_xss st now c ip url).1.attack_log = st.attack_log ++ [a]) ∧
    ((detect_xss st now c ip url).2.detected = false →
      (detect_xss st now c ip url).1 = st) := by
  rw [detect_xss_def]
  split
  · simp
  · split
    · simp
    · simp

/-- Witness for C7: a detecting call (`"<script>"`) and a non-detecting
call (`"hello"`) at a fresh state. -/
theorem C7_state_mutation_witness :
    (detect_xss initState "t".data "<script>".data "1.2.3.4".data "/u".data).2.detected = true ∧
    (detect_xss initState "t".data "<script>".data "1.2.3.4".data "/u".data).1.detection_count =
      initState.detection_count + 1 ∧
    (∃ a, (detect_xss initState "t".data "<script>".data "1.2.3.4".data "/u".data).1.attack_log =
      initState.attack_log ++ [a]) ∧
    (detect_xss initState "t".data "hello".data "1.2.3.4".data "/u".data).2.detected = false ∧
    (detect_xss initState "t".data "hello".data "1.2.3.4".data "/u".data).1 = initState := by
  have h1 := (C7_state_mutation initState "t".data "<script>".data "1.2.3.4".data "/u".data).1 (by decide)
  have h2 := (C7_state_mutation initState "t".data "hello".data "1.2.3.4".data "/u".data).2 (by decide)
  exact ⟨by decide, h1.1, h1.2, by decide, h2⟩

/-- Claim C9: the verdict of `detect_xss` is deterministic — two calls
with the same content, source ip and url, from any two detector states
(and at any two times), return the same match records and risk level. -/
theorem C9_verdict_deterministic (st1 st2 : DetectorState) (now1 now2 c ip url : List Char) :
    (detect_xss st1 now1 c ip url).2.patterns = (detect_xss st2 now2 c ip url).2.patterns ∧
    (detect_xss st1 now1 c ip url).2.risk_level = (detect_xss st2 now2 c ip url).2.risk_level := by
  rw [detect_xss_def, detect_xss_def]
  split
  · exact ⟨rfl, rfl⟩
  · split
    · exact ⟨rfl, rfl⟩
    · exact ⟨rfl, rfl⟩

/-- Claim C10: `detected`, `patterns` and `risk_level` depend only on the
content — `source_ip` and `url` influence only the logged `attack_info`. -/
theorem C10_verdict_depends_only_on_content (st : DetectorState) (now c ip1 ip2 url1 url2 : List Char) :
    (detect_xss st now c ip1 url1).2.detected = (detect_xss st now c ip2 url2).2.detected ∧
    (detect_xss st now c ip1 url1).2.patterns = (detect_xss st now c ip2 url2).2.patterns ∧
    (detect_xss st now c ip1 url1).2.risk_level = (detect_xss st now c ip2 url2).2.risk_level := by
  rw [detect_xss_def, detect_xss_def]
  split
  · exact ⟨rfl, rfl, rfl⟩
  · split
    · exact ⟨rfl, rfl, rfl⟩
    · exact ⟨rfl, rfl, rfl⟩

/-- Claim C8 counterexample: the input `"%zz%41"` contains the malformed
escape `%zz`, and the decode step returns `"%zzA"` — the malformed escape
is kept but the rest is still decoded, so the result is NOT the original
string unchanged (CPython's `unquote_plus("%zz%41")` is `'%zzA'`). -/
theorem C8_counterexample :
    unquote_plus "%zz%41".data = "%zzA".data ∧ "%zz%41".data ≠ "%zzA".data := by
  constructor
  · rfl
  · decide

/-- Claim C8 (amended): decoding applies one pass of `unquote_plus`
(`+` to space, valid `%XX` to the byte); a malformed escape sequence is
left in place literally while scanning continues on the remainder — the
decode step is a total function that never raises, but it does not fall
back to the whole original string. -/
theorem pctDecode_pct_cons3 (a b : Char) (r : List Char) :
    pctDecode ('%' :: a :: b :: r) =
      if isHexChar a && isHexChar b then Char.ofNat (16 * hexVal a + hexVal b) :: pctDecode r
      else '%' :: pctDecode (a :: b :: r) := by
  rfl

theorem C8_malformed_escape_kept (h1 h2 : Char) (rest : List Char)
    (h : ¬(isHexChar h1 = true ∧ isHexChar h2 = true)) :
    unquote_plus ('%' :: h1 :: h2 :: rest) = '%' :: unquote_plus (h1 :: h2 :: rest) := by
  have hp : ∀ x : Char, isHexChar (if x = '+' then ' ' else x) = true → isHexChar x = true := by
    intro x hx
    by_cases hpl : x = '+'
    · rw [if_pos hpl] at hx
      exact absurd hx (by decide)
    · rwa [if_neg hpl] at hx
  have hfalse : (isHexChar (if h1 = '+' then ' ' else h1) &&
      isHexChar (if h2 = '+' then ' ' else h2)) = false := by
    by_cases ha : isHexChar (if h1 = '+' then ' ' else h1) = true
    · by_cases hb : isHexChar (if h2 = '+' then ' ' else h2) = true
      · exact absurd ⟨hp h1 ha, hp h2 hb⟩ h
      · simp only [Bool.not_eq_true] at hb
        simp [hb]
    · simp only [Bool.not_eq_true] at ha
      simp [ha]
  unfold unquote_plus plusToSpace
  simp only [List.map_cons]
  rw [if_neg (by decide : ¬(('%' : Char) = '+'))]
  rw [pctDecode_pct_cons3]
  rw [if_neg (by simp [hfalse])]

/-- Witness for C8 (amended) at the malformed escape `%zz` followed by
`%41`: the `%` is kept and the remainder still decodes. -/
theorem C8_malformed_escape_kept_witness :
    unquote_plus ('%' :: 'z' :: 'z' :: "%41".data) = '%' :: unquote_plus ('z' :: 'z' :: "%41".data) :=
  C8_malformed_escape_kept 'z' 'z' "%41".data (by decide)

/-- A header whose lowercased name is not inspected, or which contains no
matching content, leaves the accumulated results of the header loop
unchanged. -/
theorem headerCheck_snd_clean (now ip url : List Char) (st : DetectorState)
    (acc : List LocationResult) (hv : List Char × List Char)
    (h : lowerStr hv.1 ∈ inspected_headers → detectedFlag hv.2 = false) :
    (headerCheck now ip url (st, acc) hv).2 = acc := by
  unfold headerCheck
  by_cases hmem : lowerStr hv.1 ∈ inspected_headers
  · rw [if_pos hmem]
    have hdet : (detect_xss st now hv.2 ip url).2.detected = false := by
      rw [detect_xss_detected]
      exact h hmem
    simp [hdet]
  · rw [if_neg hmem]

/-- If every inspected header is clean, the whole header loop leaves the
accumulated results unchanged. -/
theorem headerCheck_fold_clean (now ip url : List Char) :
    ∀ (headers : List (List Char × List Char)),
      (∀ p ∈ headers, lowerStr p.1 ∈ inspected_headers → detectedFlag p.2 = false) →
      ∀ (st : DetectorState) (acc : List LocationResult),
        (headers.foldl (headerCheck now ip url) (st, acc)).2 = acc := by
  intro headers
  induction headers with
  | nil => intro _ st acc; rfl
  | cons hd tl ih =>
      intro h st acc
      simp only [List.foldl_cons]
      have htl : ∀ p ∈ tl, lowerStr p.1 ∈ inspected_headers → detectedFlag p.2 = false := by
        intro p hp
        exact h p (List.mem_cons_of_mem _ hp)
      have hone := headerCheck_snd_clean now ip url st acc hd (h hd (List.mem_cons_self _ _))
      calc (tl.foldl (headerCheck now ip url) (headerCheck now ip url (st, acc) hd)).2
          = (tl.foldl (headerCheck now ip url)
              ((headerCheck now ip url (st, acc) hd).1,
               (headerCheck now ip url (st, acc) hd).2)).2 := by rfl
        _ = (tl.foldl (headerCheck now ip url)
              ((headerCheck now ip url (st, acc) hd).1, acc)).2 := by rw [hone]
        _ = acc := ih htl _ acc

/-- Claim C5: for a request whose URL and inspected headers contain no
matching content and whose non-empty body does, `analyze_http_request`
returns detected=true with exactly one LocationResult, tagged "Body",
and `total_detections` = 1 (it counts triggering locations, not
signatures). -/
theorem C5_body_only_detection (st : DetectorState) (now method url : List Char)
    (headers : List (List Char × List Char)) (body ip : List Char)
    (hurl : detectedFlag url = false)
    (hheaders : ∀ p ∈ headers, lowerStr p.1 ∈ inspected_headers → detectedFlag p.2 = false)
    (hbody_ne : body ≠ [])
    (hbody : detectedFlag body = true) :
    (analyze_http_request st now method url headers body ip).2.detected = true ∧
    (analyze_http_request st now method url headers body ip).2.results.map
      (fun r => r.location) = ["Body".data] ∧
    (analyze_http_request st now method url headers body ip).2.total_detections = 1 := by
  have hu : (detect_xss st now url ip url).2.detected = false := by
    rw [detect_xss_detected]
    exact hurl
  simp only [analyze_http_request, hu, Bool.false_eq_true, if_false]
  rcases hfold : headers.foldl (headerCheck now ip url) ((detect_xss st now url ip url).1, [])
    with ⟨st2, acc2⟩
  have hacc2 : acc2 = [] := by
    have hall := headerCheck_fold_clean now ip url headers hheaders (detect_xss st now url ip url).1 []
    rw [hfold] at hall
    exact hall
  subst hacc2
  rw [if_neg hbody_ne]
  have hb : (detect_xss st2 now body ip url).2.detected = true := by
    rw [detect_xss_detected]
    exact hbody
  simp [hb]

/-- Witness for C5: a POST with clean URL `/c`, a clean `User-Agent`
header and the body `"<script>"`. -/
theorem C5_body_only_detection_witness :
    (analyze_http_request initState "t".data "POST".data "/c".data
      [("User-Agent".data, "Mozilla".data)] "<script>".data "10.0.0.3".data).2.detected = true ∧
    (analyze_http_request initState "t".data "POST".data "/c".data
      [("User-Agent".data, "Mozilla".data)] "<script>".data "10.0.0.3".data).2.results.map
      (fun r => r.location) = ["Body".data] ∧
    (analyze_http_request initState "t".data "POST".data "/c".data
      [("User-Agent".data, "Mozilla".data)] "<script>".data "10.0.0.3".data).2.total_detections = 1 :=
  C5_body_only_detection initState "t".data "POST".data "/c".data
    [("User-Agent".data, "Mozilla".data)] "<script>".data "10.0.0.3".data
    (by decide) (by decide) (by decide) (by decide)

theorem accepts_nil (r : Regex) : accepts r [] = nullable r := rfl

theorem accepts_cons (r : Regex) (c : Char) (w : List Char) :
    accepts r (c :: w) = accepts (rderiv r c) w := rfl

theorem HasMatchP.append_right {r : Regex} {s : List Char} (h : HasMatchP r s)
    (z : List Char) : HasMatchP r (s ++ z) := by
  obtain ⟨u, v, w, rfl, hv⟩ := h
  exact ⟨u, v, w ++ z, by simp, hv⟩

theorem HasMatchP.append_left {r : Regex} {s : List Char} (h : HasMatchP r s)
    (z : List Char) : HasMatchP r (z ++ s) := by
  obtain ⟨u, v, w, rfl, hv⟩ := h
  exact ⟨z ++ u, v, w, by simp, hv⟩

theorem longestMatch_sound (r : Regex) (s : List Char) (n : Nat)
    (h : longestMatch r s = some n) : accepts r (s.take n) = true := by
  induction s generalizing r n with
  | nil =>
      unfold longestMatch at h
      by_cases hn : nullable r = true
      · rw [if_pos hn] at h
        cases h
        simpa [accepts] using hn
      · rw [if_neg hn] at h
        cases h
  | cons c cs ih =>
      unfold longestMatch at h
      cases hm : longestMatch (rderiv r c) cs with
      | some m =>
          rw [hm] at h
          cases h
          rw [List.take_succ_cons, accepts_cons]
          exact ih (rderiv r c) m hm
      | none =>
          rw [hm] at h
          by_cases hn : nullable r = true
          · rw [if_pos hn] at h
            cases h
            simpa [accepts] using hn
          · rw [if_neg hn] at h
            cases h

theorem longestMatch_isSome_of_nullable (r : Regex) (s : List Char)
    (h : nullable r = true) : (longestMatch r s).isSome := by
  cases s with
  | nil => simp [longestMatch, h]
  | cons c cs =>
      unfold longestMatch
      cases hm : longestMatch (rderiv r c) cs <;> simp [hm, h]

theorem longestMatch_complete (r : Regex) (v : List Char) (hv : accepts r v = true) :
    ∀ w : List Char, (longestMatch r (v ++ w)).isSome := by
  induction v generalizing r with
  | nil =>
      intro w
      exact longestMatch_isSome_of_nullable r w (by simpa [accepts] using hv)
  | cons c v' ih =>
      intro w
      rw [accepts_cons] at hv
      have := ih (rderiv r c) hv w
      show (longestMatch r (c :: (v' ++ w))).isSome = true
      have hstep : longestMatch r (c :: (v' ++ w)) =
          match longestMatch (rderiv r c) (v' ++ w) with
          | some n => some (n + 1)
          | Option.none => if nullable r then some 0 else Option.none := rfl
      rw [hstep]
      cases hm : longestMatch (rderiv r c) (v' ++ w) with
      | some m => simp
      | none => rw [hm] at this; simp at this

theorem findallAux_ne_nil_of_accepts (r : Regex) :
    ∀ (fuel : Nat) (u v w : List Char), accepts r v = true →
      (u ++ v ++ w).length < fuel → findallAux r fuel (u ++ v ++ w) ≠ [] := by
  intro fuel
  induction fuel with
  | zero => intro u v w _ hlen; omega
  | succ f ih =>
      intro u v w hv hlen
      cases u with
      | nil =>
          simp only [List.nil_append] at hlen ⊢
          cases hvw : v ++ w with
          | nil =>
              have hveq : v = [] := by
                cases v with
                | nil => rfl
                | cons a t => simp at hvw
              subst hveq
              unfold findallAux
              rw [show nullable r = true from by simpa [accepts] using hv]
              simp
          | cons c cs =>
              have hsome := longestMatch_complete r v hv w
              rw [hvw] at hsome
              unfold findallAux
              cases hm : longestMatch r (c :: cs) with
              | none => rw [hm] at hsome; simp at hsome
              | some n => cases n <;> simp [hm]
      | cons a u' =>
          simp only [List.cons_append, List.length_cons] at hlen ⊢
          unfold findallAux
          cases hm : longestMatch r (a :: (u' ++ v ++ w)) with
          | none =>
              intro hcon
              exact ih u' v w hv (by omega) hcon
          | some n => cases n <;> simp [hm]

theorem findall_ne_nil_of_hasMatch {r : Regex} {s : List Char}
    (h : HasMatchP r s) : findall r s ≠ [] := by
  obtain ⟨u, v, w, rfl, hv⟩ := h
  exact findallAux_ne_nil_of_accepts r ((u ++ v ++ w).length + 1) u v w hv (by omega)

theorem hasMatch_of_findallAux_ne_nil (r : Regex) :
    ∀ (fuel : Nat) (s : List Char), findallAux r fuel s ≠ [] → HasMatchP r s := by
  intro fuel
  induction fuel with
  | zero => intro s h; exact absurd rfl h
  | succ f ih =>
      intro s h
      cases s with
      | nil =>
          unfold findallAux at h
          by_cases hn : nullable r = true
          · exact ⟨[], [], [], rfl, by simpa [accepts] using hn⟩
          · rw [if_neg hn] at h
            exact absurd rfl h
      | cons c cs =>
          unfold findallAux at h
          cases hm : longestMatch r (c :: cs) with
          | none =>
              rw [hm] at h
              obtain ⟨u, v, w, hw, hv⟩ := ih cs h
              exact ⟨c :: u, v, w, by simp [hw], hv⟩
          | some n =>
              have hacc := longestMatch_sound r (c :: cs) n hm
              exact ⟨[], (c :: cs).take n, (c :: cs).drop n, by simp, hacc⟩

theorem hasMatch_of_findall_ne_nil {r : Regex} {s : List Char}
    (h : findall r s ≠ []) : HasMatchP r s :=
  hasMatch_of_findallAux_ne_nil r (s.length + 1) s h

theorem finals_of_nullable_rderiv (r : Regex) (c : Char)
    (h : nullable (rderiv r c) = true) : finals r c = true := by
  induction r with
  | fail => simp [rderiv, nullable] at h
  | eps => simp [rderiv, nullable] at h
  | cls p =>
      simp only [rderiv] at h
      by_cases hp : p c = true
      · simpa [finals] using hp
      · rw [if_neg hp] at h
        simp [nullable] at h
  | seq a b iha ihb =>
      simp only [rderiv] at h
      by_cases hna : nullable a = true
      · rw [if_pos hna] at h
        simp only [nullable, Bool.or_eq_true, Bool.and_eq_true] at h
        rcases h with ⟨hda, hnb⟩ | hdb
        · simp [finals, hnb, iha hda]
        · simp [finals, ihb hdb]
      · rw [if_neg hna] at h
        simp only [nullable, Bool.and_eq_true] at h
        simp [finals, h.2, iha h.1]
  | alt a b iha ihb =>
      simp only [rderiv, nullable, Bool.or_eq_true] at h
      rcases h with h | h
      · simp [finals, iha h]
      · simp [finals, ihb h]
  | star r ihr =>
      simp only [rderiv, nullable, Bool.and_eq_true] at h
      simp [finals, ihr h.1]

theorem finals_rderiv_le (r : Regex) (x c : Char)
    (h : finals (rderiv r x) c = true) : finals r c = true := by
  induction r with
  | fail => simp [rderiv, finals] at h
  | eps => simp [rderiv, finals] at h
  | cls p =>
      simp only [rderiv] at h
      by_cases hp : p x = true
      · rw [if_pos hp] at h
        simp [finals] at h
      · rw [if_neg hp] at h
        simp [finals] at h
  | seq a b iha ihb =>
      simp only [rderiv] at h
      by_cases hna : nullable a = true
      · rw [if_pos hna] at h
        simp only [finals, Bool.or_eq_true, Bool.and_eq_true] at h
        rcases h with (hb | ⟨hnb, hda⟩) | hdb
        · simp [finals, hb]
        · simp [finals, hnb, iha hda]
        · simp [finals, ihb hdb]
      · rw [if_neg hna] at h
        simp only [finals, Bool.or_eq_true, Bool.and_eq_true] at h
        rcases h with hb | ⟨hnb, hda⟩
        · simp [finals, hb]
        · simp [finals, hnb, iha hda]
  | alt a b iha ihb =>
      simp only [rderiv, finals, Bool.or_eq_true] at h
      rcases h with h | h
      · simp [finals, iha h]
      · simp [finals, ihb h]
  | star r ihr =>
      simp only [rderiv, finals, nullable, Bool.or_eq_true, Bool.and_eq_true, true_and] at h
      rcases h with h | h
      · simp [finals, h]
      · simp [finals, ihr h]

theorem finals_of_accepts (r : Regex) (u : List Char) (c : Char)
    (h : accepts r (u ++ [c]) = true) : finals r c = true := by
  induction u generalizing r with
  | nil => exact finals_of_nullable_rderiv r c h
  | cons a u' ih =>
      rw [List.cons_append, accepts_cons] at h
      exact finals_rderiv_le r a c (ih (rderiv r a) h)

theorem last2_of_nullable_rderiv2 (r : Regex) (x y : Char)
    (h : nullable (rderiv (rderiv r x) y) = true) : last2 r x y = true := by
  induction r with
  | fail => simp [rderiv, nullable] at h
  | eps => simp [rderiv, nullable] at h
  | cls p =>
      simp only [rderiv] at h
      by_cases hp : p x = true
      · rw [if_pos hp] at h
        simp [rderiv, nullable] at h
      · rw [if_neg hp] at h
        simp [rderiv, nullable] at h
  | seq a b iha ihb =>
      simp only [rderiv] at h
      by_cases hna : nullable a = true
      · rw [if_pos hna] at h
        simp only [rderiv] at h
        by_cases hnd : nullable (rderiv a x) = true
        · rw [if_pos hnd] at h
          simp only [nullable, Bool.or_eq_true, Bool.and_eq_true] at h
          rcases h with (⟨hdd, hnb⟩ | hdby) | hdbxy
          · simp [last2, hnb, iha hdd]
          · have hfa : finals a x = true := finals_of_nullable_rderiv a x hnd
            simp [last2, hfa, singleChar, hdby]
          · simp [last2, ihb hdbxy]
        · rw [if_neg hnd] at h
          simp only [nullable, Bool.or_eq_true, Bool.and_eq_true] at h
          rcases h with ⟨hdd, hnb⟩ | hdbxy
          · simp [last2, hnb, iha hdd]
          · simp [last2, ihb hdbxy]
      · rw [if_neg hna] at h
        simp only [rderiv] at h
        by_cases hnd : nullable (rderiv a x) = true
        · rw [if_pos hnd] at h
          simp only [nullable, Bool.or_eq_true, Bool.and_eq_true] at h
          rcases h with ⟨hdd, hnb⟩ | hdby
          · simp [last2, hnb, iha hdd]
          · have hfa : finals a x = true := finals_of_nullable_rderiv a x hnd
            simp [last2, hfa, singleChar, hdby]
        · rw [if_neg hnd] at h
          simp only [nullable, Bool.and_eq_true] at h
          simp [last2, h.2, iha h.1]
  | alt a b iha ihb =>
      simp only [rderiv, nullable, Bool.or_eq_true] at h
      rcases h with h | h
      · simp [last2, iha h]
      · simp [last2, ihb h]
  | star r ihr =>
      simp only [rderiv] at h
      by_cases hnd : nullable (rderiv r x) = true
      · rw [if_pos hnd] at h
        simp only [nullable, Bool.or_eq_true, Bool.and_eq_true, and_true] at h
        rcases h with hdd | hdry
        · simp [last2, ihr hdd]
        · have hfr : finals r x = true := finals_of_nullable_rderiv r x hnd
          simp [last2, hfr, singleChar, hdry]
      · rw [if_neg hnd] at h
        simp only [nullable, Bool.and_eq_true, and_true] at h
        simp [last2, ihr h]

theorem singleChar_rderiv_le (r : Regex) (z y : Char)
    (h : singleChar (rderiv r z) y = true) : last2 r z y = true :=
  last2_of_nullable_rderiv2 r z y h

theorem last2_rderiv_le (r : Regex) (z x y : Char)
    (h : last2 (rderiv r z) x y = true) : last2 r x y = true := by
  induction r with
  | fail => simp [rderiv, last2] at h
  | eps => simp [rderiv, last2] at h
  | cls p =>
      simp only [rderiv] at h
      by_cases hp : p z = true
      · rw [if_pos hp] at h
        simp [last2] at h
      · rw [if_neg hp] at h
        simp [last2] at h
  | seq a b iha ihb =>
      simp only [rderiv] at h
      by_cases hna : nullable a = true
      · rw [if_pos hna] at h
        simp only [last2, Bool.or_eq_true, Bool.and_eq_true] at h
        rcases h with ((hb | ⟨hnb, hda⟩) | ⟨hfda, hsb⟩) | hdb
        · simp [last2, hb]
        · simp [last2, hnb, iha hda]
        · have hfa : finals a x = true := finals_rderiv_le a z x hfda
          simp [last2, hfa, hsb]
        · simp [last2, ihb hdb]
      · rw [if_neg hna] at h
        simp only [last2, Bool.or_eq_true, Bool.and_eq_true] at h
        rcases h with (hb | ⟨hnb, hda⟩) | ⟨hfda, hsb⟩
        · simp [last2, hb]
        · simp [last2, hnb, iha hda]
        · have hfa : finals a x = true := finals_rderiv_le a z x hfda
          simp [last2, hfa, hsb]
  | alt a b iha ihb =>
      simp only [rderiv, last2, Bool.or_eq_true] at h
      rcases h with h | h
      · simp [last2, iha h]
      · simp [last2, ihb h]
  | star r ihr =>
      simp only [rderiv, last2, nullable, Bool.or_eq_true, Bool.and_eq_true, true_and] at h
      rcases h with ((h1 | ⟨h2a, h2b⟩) | hdr) | ⟨hfdr, hs⟩
      · simp [last2, h1]
      · simp [last2, h2a, h2b]
      · simp [last2, ihr hdr]
      · have hfr : finals r x = true := finals_rderiv_le r z x hfdr
        have hsr : singleChar r y = true := by
          simpa [singleChar, rderiv, nullable] using hs
        simp [last2, hfr, hsr]

theorem last2_of_accepts (r : Regex) (u : List Char) (x y : Char)
    (h : accepts r (u ++ [x, y]) = true) : last2 r x y = true := by
  induction u generalizing r with
  | nil => exact last2_of_nullable_rderiv2 r x y h
  | cons a u' ih =>
      rw [List.cons_append, accepts_cons] at h
      exact last2_rderiv_le r a x y (ih (rderiv r a) h)

theorem singleChar_of_accepts (r : Regex) (c : Char)
    (h : accepts r [c] = true) : singleChar r c = true :=
  h

theorem append_singleton_inj {s t : List Char} {a b : Char}
    (h : s ++ [a] = t ++ [b]) : s = t ∧ a = b := by
  have hlen : s.length = t.length := by
    have hl := congrArg List.length h
    simp only [List.length_append, List.length_cons, List.length_nil] at hl
    omega
  obtain ⟨h1, h2⟩ := List.append_inj h hlen
  exact ⟨h1, by simpa using h2⟩

theorem append_pair_inj {s t : List Char} {a b c d : Char}
    (h : s ++ [a, b] = t ++ [c, d]) : s = t ∧ a = c ∧ b = d := by
  have hlen : s.length = t.length := by
    have hl := congrArg List.length h
    simp only [List.length_append, List.length_cons, List.length_nil] at hl
    omega
  obtain ⟨h1, h2⟩ := List.append_inj h hlen
  injection h2 with h2a h2b
  injection h2b with h2c
  exact ⟨h1, h2a, h2c⟩

theorem eq_nil_or_append_singleton (l : List Char) : l = [] ∨ ∃ t a, l = t ++ [a] := by
  rcases List.eq_nil_or_concat l with h | ⟨t, a, h⟩
  · exact Or.inl h
  · exact Or.inr ⟨t, a, by simpa [List.concat_eq_append] using h⟩

/-- If no word of `r` is empty or ends with `%`, a match inside `s ++ ['%']`
lies inside `s`. -/
theorem hasMatch_strip_one {r : Regex} (hnul : nullable r = false)
    (hfin : finals r '%' = false) {s : List Char}
    (h : HasMatchP r (s ++ ['%'])) : HasMatchP r s := by
  obtain ⟨u, v, w, heq, hv⟩ := h
  rcases eq_nil_or_append_singleton w with rfl | ⟨w', b, rfl⟩
  · rcases eq_nil_or_append_singleton v with rfl | ⟨v', c, rfl⟩
    · rw [accepts_nil, hnul] at hv
      cases hv
    · have heq2 : s ++ ['%'] = (u ++ v') ++ [c] := by
        rw [heq]
        simp [List.append_assoc]
      obtain ⟨-, hc⟩ := append_singleton_inj heq2
      have hfc : finals r c = true := finals_of_accepts r v' c hv
      rw [← hc, hfin] at hfc
      cases hfc
  · have heq2 : s ++ ['%'] = (u ++ v ++ w') ++ [b] := by
      rw [heq]
      simp [List.append_assoc]
    obtain ⟨hs, -⟩ := append_singleton_inj heq2
    exact ⟨u, v, w', by simpa [List.append_assoc] using hs, hv⟩

/-- If no word of `r` is empty, ends with `%`, is the single character
`hd`, or ends with `%` followed by `hd`, then a match inside
`s ++ ['%', hd]` lies inside `s`. -/
theorem hasMatch_strip_two {r : Regex} {hd : Char}
    (hnul : nullable r = false) (hfin : finals r '%' = false)
    (hsingle : singleChar r hd = false) (hl2 : last2 r '%' hd = false)
    {s : List Char} (h : HasMatchP r (s ++ ['%', hd])) : HasMatchP r s := by
  obtain ⟨u, v, w, heq, hv⟩ := h
  rcases eq_nil_or_append_singleton w with rfl | ⟨w', b, rfl⟩
  · rcases eq_nil_or_append_singleton v with rfl | ⟨v', c, rfl⟩
    · rw [accepts_nil, hnul] at hv
      cases hv
    · rcases eq_nil_or_append_singleton v' with rfl | ⟨v'', c2, rfl⟩
      · have heq2 : (s ++ ['%']) ++ [hd] = u ++ [c] := by
          simpa [List.append_assoc] using heq
        obtain ⟨-, hc⟩ := append_singleton_inj heq2
        have hsc : singleChar r c = true := singleChar_of_accepts r c (by simpa using hv)
        rw [← hc, hsingle] at hsc
        cases hsc
      · have heq2 : s ++ ['%', hd] = (u ++ v'') ++ [c2, c] := by
          rw [heq]
          simp [List.append_assoc]
        obtain ⟨-, hc2, hc⟩ := append_pair_inj heq2
        have hl : last2 r c2 c = true := by
          apply last2_of_accepts r v'' c2 c
          simpa [List.append_assoc] using hv
        rw [← hc2, ← hc, hl2] at hl
        cases hl
  · rcases eq_nil_or_append_singleton w' with rfl | ⟨w'', b2, rfl⟩
    · have heq2 : (s ++ ['%']) ++ [hd] = (u ++ v) ++ [b] := by
        simpa [List.append_assoc] using heq
      obtain ⟨hsv, -⟩ := append_singleton_inj heq2
      rcases eq_nil_or_append_singleton v with rfl | ⟨v', c, rfl⟩
      · rw [accepts_nil, hnul] at hv
        cases hv
      · have heq3 : s ++ ['%'] = (u ++ v') ++ [c] := by
          rw [hsv]
          simp [List.append_assoc]
        obtain ⟨-, hc⟩ := append_singleton_inj heq3
        have hfc : finals r c = true := finals_of_accepts r v' c hv
        rw [← hc, hfin] at hfc
        cases hfc
    · have heq2 : s ++ ['%', hd] = (u ++ v ++ w'') ++ [b2, b] := by
        rw [heq]
        simp [List.append_assoc]
      obtain ⟨hs, -, -⟩ := append_pair_inj heq2
      exact ⟨u, v, w'', by simpa [List.append_assoc] using hs, hv⟩

/-- Boundary check, verified by computation on the compiled catalog: no
pattern accepts the empty string, no pattern's match can end with `%`, no
match is a single hex digit, and no match ends with `%` followed by a hex
digit.  (Intuitively: every pattern's matches end with a fixed letter or
one of `> = : (`, preceded by a character that is never `%`.) -/
theorem patterns_boundary_check :
    compiled_patterns.all (fun r =>
      !nullable r && !finals r '%' &&
      hexDigits.all (fun hd => !singleChar r hd && !last2 r '%' hd)) = true := by
  rfl

theorem pctDecode_cons_ne (c : Char) (hc : c ≠ '%') (r : List Char) :
    pctDecode (c :: r) = c :: pctDecode r := by
  cases r with
  | nil => simp [pctDecode, hc]
  | cons a r2 =>
      cases r2 with
      | nil => simp [pctDecode, hc]
      | cons b r3 => simp [pctDecode, hc]

/-- Splitting percent-decoding at a concatenation point: either the
decoding splits cleanly, or the left part ends with a dangling `%` or
`%h` (`h` a hex digit) that re-combines with the start of the right
part.  The dangling tail is at most the last two characters of the
decoded left part. -/
theorem pctDecode_append_cases (B : List Char) :
    ∀ (n : Nat) (A : List Char), A.length ≤ n →
      pctDecode (A ++ B) = pctDecode A ++ pctDecode B ∨
      (∃ s, pctDecode A = s ++ ['%'] ∧ pctDecode (A ++ B) = s ++ pctDecode ('%' :: B)) ∨
      (∃ s hd, isHexChar hd = true ∧ pctDecode A = s ++ ['%', hd] ∧
        pctDecode (A ++ B) = s ++ pctDecode ('%' :: hd :: B)) := by
  intro n
  induction n with
  | zero =>
      intro A hA
      have hnil : A = [] := List.eq_nil_of_length_eq_zero (Nat.le_zero.mp hA)
      subst hnil
      left
      simp [pctDecode]
  | succ n ih =>
      intro A hA
      cases A with
      | nil =>
          left
          simp [pctDecode]
      | cons c rest =>
          by_cases hc : c = '%'
          · subst hc
            cases rest with
            | nil =>
                right; left
                exact ⟨[], rfl, rfl⟩
            | cons a rest2 =>
                cases rest2 with
                | nil =>
                    by_cases hhex : isHexChar a = true
                    · right; right
                      have ha : a ≠ '%' := by
                        intro e
                        subst e
                        exact absurd hhex (by decide)
                      refine ⟨[], a, hhex, ?_, rfl⟩
                      show pctDecode ('%' :: [a]) = ['%', a]
                      have : pctDecode ('%' :: [a]) = '%' :: pctDecode [a] := rfl
                      rw [this, pctDecode_cons_ne a ha]
                      rfl
                    · by_cases ha : a = '%'
                      · subst ha
                        right; left
                        refine ⟨['%'], rfl, ?_⟩
                        cases B with
                        | nil => rfl
                        | cons b B2 =>
                            show pctDecode ('%' :: '%' :: b :: B2) = '%' :: pctDecode ('%' :: b :: B2)
                            rw [pctDecode_pct_cons3]
                            rw [if_neg (by rw [show isHexChar '%' = false from rfl]; simp)]
                      · left
                        cases B with
                        | nil => simp [pctDecode]
                        | cons b B2 =>
                            show pctDecode ('%' :: a :: b :: B2) =
                              pctDecode ['%', a] ++ pctDecode (b :: B2)
                            rw [pctDecode_pct_cons3]
                            rw [if_neg (by simp only [Bool.not_eq_true] at hhex; simp [hhex])]
                            rw [pctDecode_cons_ne a ha]
                            have h2 : pctDecode ['%', a] = ['%', a] := by
                              have : pctDecode ('%' :: [a]) = '%' :: pctDecode [a] := rfl
                              rw [this, pctDecode_cons_ne a ha]
                              rfl
                            rw [h2]
                            rfl
                | cons b rest3 =>
                    have hAB : ('%' :: a :: b :: rest3) ++ B = '%' :: a :: b :: (rest3 ++ B) := rfl
                    rw [hAB, pctDecode_pct_cons3, pctDecode_pct_cons3]
                    by_cases hg : (isHexChar a && isHexChar b) = true
                    · rw [if_pos hg, if_pos hg]
                      have hlen : rest3.length ≤ n := by
                        simp only [List.length_cons] at hA
                        omega
                      rcases ih rest3 hlen with h1 | ⟨s2, h1, h2⟩ | ⟨s2, hd, hh, h1, h2⟩
                      · left
                        rw [h1, List.cons_append]
                      · right; left
                        exact ⟨Char.ofNat (16 * hexVal a + hexVal b) :: s2,
                          by rw [List.cons_append, h1], by rw [List.cons_append, h2]⟩
                      · right; right
                        exact ⟨Char.ofNat (16 * hexVal a + hexVal b) :: s2, hd, hh,
                          by rw [List.cons_append, h1], by rw [List.cons_append, h2]⟩
                    · rw [if_neg hg, if_neg hg]
                      have hlen : (a :: b :: rest3).length ≤ n := by
                        simp only [List.length_cons] at hA ⊢
                        omega
                      have hres : (a :: b :: rest3) ++ B = a :: b :: (rest3 ++ B) := rfl
                      rcases ih (a :: b :: rest3) hlen with h1 | ⟨s2, h1, h2⟩ | ⟨s2, hd, hh, h1, h2⟩
                      · left
                        rw [← hres, h1, List.cons_append]
                      · right; left
                        exact ⟨'%' :: s2, by rw [List.cons_append, h1],
                          by rw [List.cons_append, ← hres, h2]⟩
                      · right; right
                        exact ⟨'%' :: s2, hd, hh, by rw [List.cons_append, h1],
                          by rw [List.cons_append, ← hres, h2]⟩
          · have hres : (c :: rest) ++ B = c :: (rest ++ B) := rfl
            rw [hres, pctDecode_cons_ne c hc, pctDecode_cons_ne c hc]
            have hlen : rest.length ≤ n := by
              simp only [List.length_cons] at hA
              omega
            rcases ih rest hlen with h1 | ⟨s2, h1, h2⟩ | ⟨s2, hd, hh, h1, h2⟩
            · left
              rw [h1, List.cons_append]
            · right; left
              exact ⟨c :: s2, by rw [List.cons_append, h1], by rw [List.cons_append, h2]⟩
            · right; right
              exact ⟨c :: s2, hd, hh, by rw [List.cons_append, h1], by rw [List.cons_append, h2]⟩

theorem findall_decode_append (r : Regex)
    (hnul : nullable r = false) (hfin : finals r '%' = false)
    (hb : ∀ hd, isHexChar hd = true → singleChar r hd = false ∧ last2 r '%' hd = false)
    (C P : List Char) (h : findall r (unquote_plus C) ≠ []) :
    findall r (unquote_plus (C ++ P)) ≠ [] := by
  apply findall_ne_nil_of_hasMatch
  have hm : HasMatchP r (pctDecode (plusToSpace C)) := hasMatch_of_findall_ne_nil h
  have hu : unquote_plus (C ++ P) = pctDecode (plusToSpace C ++ plusToSpace P) := by
    unfold unquote_plus plusToSpace
    rw [List.map_append]
  rw [show unquote_plus (C ++ P) = pctDecode (plusToSpace C ++ plusToSpace P) from hu]
  rcases pctDecode_append_cases (plusToSpace P) (plusToSpace C).length (plusToSpace C) le_rfl
    with h1 | ⟨t, h1, h2⟩ | ⟨t, hd, hh, h1, h2⟩
  · rw [h1]
    exact hm.append_right _
  · rw [h2]
    exact (hasMatch_strip_one hnul hfin (h1 ▸ hm)).append_right _
  · rw [h2]
    exact (hasMatch_strip_two hnul hfin (hb hd hh).1 (hb hd hh).2 (h1 ▸ hm)).append_right _

theorem pattern_boundary_facts (r : Regex) (hr : r ∈ compiled_patterns) :
    nullable r = false ∧ finals r '%' = false ∧
    ∀ hd, isHexChar hd = true → singleChar r hd = false ∧ last2 r '%' hd = false := by
  have hall := patterns_boundary_check
  rw [List.all_eq_true] at hall
  have hx := hall r hr
  simp only [Bool.and_eq_true, Bool.not_eq_true'] at hx
  obtain ⟨⟨h1, h2⟩, h3⟩ := hx
  refine ⟨h1, h2, ?_⟩
  intro hd hh
  rw [List.all_eq_true] at h3
  have hmem : hd ∈ hexDigits := by
    have := hh
    unfold isHexChar at this
    exact of_decide_eq_true this
  have := h3 hd hmem
  simp only [Bool.and_eq_true, Bool.not_eq_true'] at this
  exact this

theorem scan_mem_findall {d : List Char} {m : MatchRecord}
    (hm : m ∈ scanPatterns d) :
    ∃ r, compiled_patterns.get? m.pattern_id = some r ∧ findall r d ≠ [] := by
  unfold scanPatterns at hm
  rw [List.mem_filterMap] at hm
  obtain ⟨p, hp, hf⟩ := hm
  by_cases hms : (findall p.2 d).isEmpty = true
  · rw [if_pos hms] at hf
    cases hf
  · rw [if_neg hms] at hf
    injection hf with hf
    subst hf
    refine ⟨p.2, ?_, by simpa [List.isEmpty_iff] using hms⟩
    exact (List.mem_enum_iff_get?.mp (by rcases p with ⟨i, r⟩; exact hp))

theorem scan_mem_of_findall {d : List Char} {i : Nat} {r : Regex}
    (hget : compiled_patterns.get? i = some r) (hne : findall r d ≠ []) :
    ∃ m ∈ scanPatterns d, m.pattern_id = i := by
  refine ⟨MatchRecord.mk i (xss_patterns.getD i "") ((findall r d).take 5), ?_, rfl⟩
  unfold scanPatterns
  rw [List.mem_filterMap]
  refine ⟨(i, r), List.mem_enum_iff_get?.mpr hget, ?_⟩
  rw [if_neg (by simpa [List.isEmpty_iff] using hne)]

/-- Claim C6: appending a payload whose detection alone is "high" risk
(indeed appending anything at all) never lowers the risk tier: every
pattern matched in the decoded content still matches in the decoded
concatenation, because percent-decoding changes at most a dangling
`%`/`%h` tail of the content's decoding, and no pattern's match can end
with `%`, be a single hex digit, or end with `%` followed by a hex
digit. -/
theorem C6_concat_monotone (st : DetectorState) (now ip url : List Char)
    (content payload : List Char)
    (h : (detect_xss st now payload ip url).2.risk_level = "high") :
    riskValue (detect_xss st now content ip url).2.risk_level ≤
      riskValue (detect_xss st now (content ++ payload) ip url).2.risk_level := by
  have hsurv : ∀ m ∈ (detect_xss st now content ip url).2.patterns,
      ∃ m' ∈ (detect_xss st now (content ++ payload) ip url).2.patterns,
        m'.pattern_id = m.pattern_id := by
    intro m hm
    have hm2 : m ∈ scanPatterns (unquote_plus content) := by
      rw [detect_xss_def] at hm
      split at hm
      · simp at hm
      · split at hm
        · simp at hm
        · simpa using hm
    obtain ⟨r, hget, hne⟩ := scan_mem_findall hm2
    obtain ⟨hb1, hb2, hb3⟩ := pattern_boundary_facts r (List.get?_mem hget)
    have hne2 : findall r (unquote_plus (content ++ payload)) ≠ [] :=
      findall_decode_append r hb1 hb2 hb3 content payload hne
    obtain ⟨m', hm'2, hid⟩ := scan_mem_of_findall hget hne2
    have hcp : content ++ payload ≠ [] := by
      intro he
      rw [he] at hm'2
      rw [show scanPatterns (unquote_plus []) = [] from rfl] at hm'2
      cases hm'2
    have hscan_ne : scanPatterns (unquote_plus (content ++ payload)) ≠ [] := by
      intro he
      rw [he] at hm'2
      cases hm'2
    refine ⟨m', ?_, hid⟩
    rw [detect_xss_def, if_neg hcp, if_neg hscan_ne]
    simpa using hm'2
  by_cases hhigh : (detect_xss st now content ip url).2.risk_level = "high"
  · obtain ⟨m, hm, hmh⟩ := (detect_risk_high_iff st now content ip url).mp hhigh
    obtain ⟨m', hm', hid⟩ := hsurv m hm
    have hch : (detect_xss st now (content ++ payload) ip url).2.risk_level = "high" :=
      (detect_risk_high_iff st now (content ++ payload) ip url).mpr ⟨m', hm', hid ▸ hmh⟩
    rw [hhigh, hch]
  · by_cases hmed : (detect_xss st now content ip url).2.risk_level = "medium"
    · obtain ⟨-, m, hm, hmm⟩ := (detect_risk_medium_iff st now content ip url).mp hmed
      obtain ⟨m', hm', hid⟩ := hsurv m hm
      have hge : 1 ≤ riskValue (detect_xss st now (content ++ payload) ip url).2.risk_level := by
        by_cases hch : (detect_xss st now (content ++ payload) ip url).2.risk_level = "high"
        · rw [hch]
          decide
        · have hnall : ∀ m'' ∈ (detect_xss st now (content ++ payload) ip url).2.patterns,
              m''.pattern_id ∉ high_risk_patterns := by
            intro m'' hm'' hmemh
            exact hch ((detect_risk_high_iff st now (content ++ payload) ip url).mpr
              ⟨m'', hm'', hmemh⟩)
          have hcm : (detect_xss st now (content ++ payload) ip url).2.risk_level = "medium" :=
            (detect_risk_medium_iff st now (content ++ payload) ip url).mpr
              ⟨hnall, m', hm', hid ▸ hmm⟩
          rw [hcm]
          decide
      rw [hmed, show riskValue "medium" = 1 from by decide]
      exact hge
    · have hzero : riskValue (detect_xss st now content ip url).2.risk_level = 0 := by
        unfold riskValue
        rw [if_neg hhigh, if_neg hmed]
      rw [hzero]
      exact Nat.zero_le _

/-- Witness for C6: the payload `"<script>"` alone is "high" risk, and
appending it to `"hi"` does not lower the tier. -/
theorem C6_concat_monotone_witness :
    (detect_xss initState "t".data "<script>".data "1.2.3.4".data "/u".data).2.risk_level = "high" ∧
    riskValue (detect_xss initState "t".data "hi".data "1.2.3.4".data "/u".data).2.risk_level ≤
      riskValue (detect_xss initState "t".data ("hi".data ++ "<script>".data)
        "1.2.3.4".data "/u".data).2.risk_level :=
  ⟨by decide, C6_concat_monotone initState "t".data "1.2.3.4".data "/u".data
    "hi".data "<script>".data (by decide)⟩

